import Mathlib

/-!
Shallow embedding of the audido-core audio player (Rust) for checking its
natural-language specification.  Each definition is translated from the
corresponding item in `src/audido-core/src/`; file and symbol names are noted
on the definitions.  Machine floats (`f32`) are modelled by exact reals or
rationals where the claims are about exact structure, and by an explicit
four-constructor float model where NaN/infinity behaviour matters.
-/

namespace Audido

/-! ## Playback queue (`src/audido-core/src/queue.rs`) -/

/-- `LoopMode` from queue.rs. -/
inductive LoopMode where
  | Off
  | RepeatOne
  | LoopAll
  | Shuffle
deriving DecidableEq, Repr

/-- `QueueItem` from queue.rs.  The metadata payload's fields are irrelevant
to every claim about the queue, so it is modelled by `Option Unit`. -/
structure QueueItem where
  id : Nat
  path : String
  metadata : Option Unit
deriving DecidableEq, Repr

/-- `PlaybackQueue` from queue.rs. -/
structure PlaybackQueue where
  items : List QueueItem
  current_index : Option Nat
  loop_mode : LoopMode
  shuffle_order : List Nat
  next_id : Nat
deriving DecidableEq, Repr

/-- Rust's `Iterator::position(pred)`: index of the first element satisfying
the predicate. -/
def listPosition (p : α → Bool) : List α → Option Nat
  | [] => none
  | a :: l => if p a then some 0 else (listPosition p l).map (· + 1)

namespace PlaybackQueue

/-- `PlaybackQueue::next_index` from queue.rs lines 98-124. -/
def nextIndex (q : PlaybackQueue) : Option Nat :=
  match q.current_index with
  | none => none
  | some current =>
    if q.items = [] then none
    else
      match q.loop_mode with
      | .Off => if current + 1 < q.items.length then some (current + 1) else none
      | .RepeatOne => some current
      | .LoopAll => some ((current + 1) % q.items.length)
      | .Shuffle =>
        match listPosition (fun i => i == current) q.shuffle_order with
        | some shuffle_pos =>
          -- source indexes `shuffle_order[next_shuffle_pos]`; the index is
          -- `(shuffle_pos + 1) % len`, in range because the list is non-empty
          some (q.shuffle_order.getD ((shuffle_pos + 1) % q.shuffle_order.length) 0)
        | none => q.shuffle_order.head?

/-- `PlaybackQueue::prev_index` from queue.rs lines 127-162. -/
def prevIndex (q : PlaybackQueue) : Option Nat :=
  match q.current_index with
  | none => none
  | some current =>
    if q.items = [] then none
    else
      match q.loop_mode with
      | .Off => if current > 0 then some (current - 1) else none
      | .RepeatOne => some current
      | .LoopAll =>
        if current > 0 then some (current - 1) else some (q.items.length - 1)
      | .Shuffle =>
        match listPosition (fun i => i == current) q.shuffle_order with
        | some shuffle_pos =>
          some (q.shuffle_order.getD
            (if shuffle_pos > 0 then shuffle_pos - 1 else q.shuffle_order.length - 1) 0)
        | none => q.shuffle_order.getLast?

/-- `PlaybackQueue::remove` from queue.rs lines 65-88.  The call to
`reshuffle` draws a fresh random permutation; the randomness is supplied as
the explicit argument `rnd` (used only in `Shuffle` mode, matching the
source). -/
def removeItem (q : PlaybackQueue) (rnd : List Nat) (id : Nat) :
    PlaybackQueue × Bool :=
  match listPosition (fun item => item.id == id) q.items with
  | none => (q, false)
  | some pos =>
    let items' := q.items.eraseIdx pos
    let current' :=
      match q.current_index with
      | none => none
      | some idx =>
        if pos < idx then some (idx - 1)
        else if pos = idx then
          if items' = [] then none
          else if items'.length ≤ idx then some (items'.length - 1)
          else some idx
        else some idx
    let so' := if q.loop_mode = .Shuffle then rnd else q.shuffle_order
    ({ q with items := items', current_index := current', shuffle_order := so' },
     true)

end PlaybackQueue

/-! ## Position tracker (`src/audido-core/src/source.rs` lines 26-71) -/

/-- `PositionTracker` from source.rs.  The atomic `position` cell is modelled
as a plain field; `seconds` values are exact rationals (the claims about the
tracker hold at every input on which the `f32` computation is exact). -/
structure PositionTracker where
  position : Nat
  total_samples : Nat
  sample_rate : Nat
  channels : Nat
deriving DecidableEq, Repr

namespace PositionTracker

/-- `PositionTracker::seek_to_seconds` from source.rs lines 61-65.
`(seconds * sample_rate as f32) as usize` truncates toward zero and
saturates at zero for negative values, which is `Int.toNat ∘ Int.floor`. -/
def seekToSeconds (pt : PositionTracker) (seconds : ℚ) : PositionTracker :=
  let frames := (⌊seconds * (pt.sample_rate : ℚ)⌋).toNat
  { pt with position := min (frames * pt.channels) pt.total_samples }

/-- `PositionTracker::reset` from source.rs lines 68-70. -/
def resetPosition (pt : PositionTracker) : PositionTracker :=
  { pt with position := 0 }

end PositionTracker

/-- The index the spec's words prescribe for a seek, written as
`clamp(trunc(t*Fs)*channels, 0, total)` over the integers (the spec claims
`round` in place of `trunc`; see the claim's counterexample). -/
def seekSpecIndex (pt : PositionTracker) (seconds : ℚ) : Nat :=
  (max 0 (min (⌊seconds * (pt.sample_rate : ℚ)⌋ * pt.channels)
    (pt.total_samples : ℤ))).toNat

/-! ## Parametric EQ (`src/audido-core/src/dsp/eq.rs`)

The DSP arithmetic (`f32`) is modelled over the exact reals; the structural
claims (tensor shapes, state preservation) are independent of rounding. -/

def MAX_EQ_FILTERS : Nat := 8

/-- `FilterType` from eq.rs. -/
inductive FilterType where
  | Peaking
  | LowPass
  | HighPass
  | LowShelf
  | HighShelf
  | BandPass
  | Notch
deriving DecidableEq, Repr

/-- `FilterNode` from eq.rs (the `i16` id as `Int`, the `u8` order as `Nat`). -/
structure FilterNode where
  id : Int
  filter_type : FilterType
  freq : ℝ
  gain : ℝ
  q : ℝ
  order : Nat

/-- `impl Default for FilterNode` (eq.rs lines 148-159). -/
noncomputable def FilterNode.default : FilterNode :=
  { id := 0, filter_type := .Peaking, freq := 1000, gain := 0, q := 0.707,
    order := 2 }

/-- `Biquad` from eq.rs: five normalized coefficients and two state samples. -/
structure Biquad where
  a1 : ℝ
  a2 : ℝ
  b0 : ℝ
  b1 : ℝ
  b2 : ℝ
  z1 : ℝ
  z2 : ℝ

/-- `Biquad::default()`: all fields zero. -/
noncomputable def Biquad.default : Biquad :=
  { a1 := 0, a2 := 0, b0 := 0, b1 := 0, b2 := 0, z1 := 0, z2 := 0 }

/-- `Biquad::calculate_coefficients` (eq.rs lines 214-277): the raw RBJ
`(b0, b1, b2, a0, a1, a2)` before normalization. -/
noncomputable def Biquad.calculateCoefficients (cos_w0 alpha a : ℝ) :
    FilterType → ℝ × ℝ × ℝ × ℝ × ℝ × ℝ
  | .Peaking =>
      (1 + alpha * a, -2 * cos_w0, 1 - alpha * a,
       1 + alpha / a, -2 * cos_w0, 1 - alpha / a)
  | .LowPass =>
      ((1 - cos_w0) / 2, 1 - cos_w0, (1 - cos_w0) / 2,
       1 + alpha, -2 * cos_w0, 1 - alpha)
  | .HighPass =>
      ((1 + cos_w0) / 2, -(1 + cos_w0), (1 + cos_w0) / 2,
       1 + alpha, -2 * cos_w0, 1 - alpha)
  | .LowShelf =>
      let sqrt_a := Real.sqrt a
      (a * ((a + 1) - (a - 1) * cos_w0 + 2 * sqrt_a * alpha),
       2 * a * ((a - 1) - (a + 1) * cos_w0),
       a * ((a + 1) - (a - 1) * cos_w0 - 2 * sqrt_a * alpha),
       (a + 1) + (a - 1) * cos_w0 + 2 * sqrt_a * alpha,
       -2 * ((a - 1) + (a + 1) * cos_w0),
       (a + 1) + (a - 1) * cos_w0 - 2 * sqrt_a * alpha)
  | .HighShelf =>
      let sqrt_a := Real.sqrt a
      (a * ((a + 1) + (a - 1) * cos_w0 + 2 * sqrt_a * alpha),
       -2 * a * ((a - 1) + (a + 1) * cos_w0),
       a * ((a + 1) + (a - 1) * cos_w0 - 2 * sqrt_a * alpha),
       (a + 1) - (a - 1) * cos_w0 + 2 * sqrt_a * alpha,
       2 * ((a - 1) - (a + 1) * cos_w0),
       (a + 1) - (a - 1) * cos_w0 - 2 * sqrt_a * alpha)
  | .BandPass =>
      (alpha, 0, -alpha, 1 + alpha, -2 * cos_w0, 1 - alpha)
  | .Notch =>
      (1, -2 * cos_w0, 1, 1 + alpha, -2 * cos_w0, 1 - alpha)

/-- `Biquad::update` (eq.rs lines 191-210): recompute the five normalized
coefficients from the filter node; `z1`/`z2` are carried over unchanged. -/
noncomputable def Biquad.update (b : Biquad) (filter : FilterNode)
    (sample_rate : ℝ) : Biquad :=
  let w0 := 2 * Real.pi * filter.freq / sample_rate
  let cos_w0 := Real.cos w0
  let alpha := Real.sin w0 / (2 * filter.q)
  let a := (10 : ℝ) ^ (filter.gain / 40)
  match Biquad.calculateCoefficients cos_w0 alpha a filter.filter_type with
  | (b0, b1, b2, a0, a1, a2) =>
    let inv_a0 := 1 / a0
    { b with b0 := b0 * inv_a0, b1 := b1 * inv_a0, b2 := b2 * inv_a0,
             a1 := a1 * inv_a0, a2 := a2 * inv_a0 }

/-- `Biquad::process` (eq.rs lines 177-188): Direct-Form II Transposed step;
returns the updated section and the output sample. -/
noncomputable def Biquad.process (b : Biquad) (sample : ℝ) : Biquad × ℝ :=
  let out := b.b0 * sample + b.z1
  ({ b with z1 := b.b1 * sample - b.a1 * out + b.z2,
            z2 := b.b2 * sample - b.a2 * out }, out)

/-- `EqPreset` from eq.rs. -/
inductive EqPreset where
  | Flat
  | Acoustic
  | Dance
  | Electronic
  | BassBoosted
  | Custom
deriving DecidableEq, Repr

/-- `create_flat_filters` (eq.rs lines 292-306). -/
noncomputable def createFlatFilters : List FilterNode :=
  (List.range MAX_EQ_FILTERS).map fun (i : ℕ) =>
    { id := (i : Int), filter_type := .Peaking,
      freq := ([40, 200, 500, 1000, 2000, 5000, 10000, 15000] : List ℝ).getD i 1000,
      gain := 0, q := 0.707, order := 2 }

/-- `EqPreset::set_filters` (eq.rs lines 309-325). -/
noncomputable def EqPreset.setFilters : EqPreset → List FilterNode
  | .Flat => createFlatFilters
  | .Acoustic => createFlatFilters
  | .Dance => createFlatFilters
  | .Electronic => createFlatFilters
  | .BassBoosted =>
      [{ id := 1, filter_type := .LowShelf, freq := 100, gain := 6,
         q := 0.707, order := 2 }]
  | .Custom => createFlatFilters

/-- `Equalizer` from eq.rs; `processors` is indexed `[channel][band][section]`. -/
structure Equalizer where
  sample_rate : Nat
  preset : EqPreset
  filters : List FilterNode
  processors : List (List (List Biquad))
  master_gain : ℝ
  num_channels : Nat

/-- The biquad-count computation appearing in both `rebuild_processors`
(eq.rs lines 408-409) and `parameters_changed` (lines 443-448):
`ceil(order / 2)` (exact for `u8` values), with zero bumped to one. -/
def biquadCount (order : Nat) : Nat :=
  let num_biquads := (order + 1) / 2
  if num_biquads = 0 then 1 else num_biquads

/-- `Equalizer::rebuild_processors` (eq.rs lines 398-421): fresh zero-state
sections, coefficients freshly computed. -/
noncomputable def Equalizer.rebuildProcessors (eq : Equalizer) : Equalizer :=
  { eq with processors :=
      (List.replicate eq.num_channels
        (eq.filters.map fun filter_node =>
          List.replicate (biquadCount filter_node.order)
            (Biquad.update Biquad.default filter_node (eq.sample_rate : ℝ)))) }

/-- `Equalizer::new` (eq.rs lines 340-353). -/
noncomputable def Equalizer.new (sample_rate num_channels : Nat) : Equalizer :=
  Equalizer.rebuildProcessors
    { sample_rate := sample_rate, preset := .Flat,
      filters := EqPreset.setFilters .Flat, processors := [],
      master_gain := 1, num_channels := num_channels }

/-- The per-band body of `Equalizer::parameters_changed` (eq.rs lines
439-462): resize the chain to `biquadCount order` — appending zero-state
sections when growing, truncating from the end when shrinking — then update
coefficients on every section. -/
noncomputable def reconcileChain (filter_node : FilterNode) (sample_rate : ℝ)
    (biquad_chain : List Biquad) : List Biquad :=
  let count := biquadCount filter_node.order
  let resized :=
    if biquad_chain.length < count then
      biquad_chain ++ List.replicate (count - biquad_chain.length) Biquad.default
    else if biquad_chain.length > count then biquad_chain.take count
    else biquad_chain
  resized.map fun biquad => biquad.update filter_node sample_rate

/-- `Equalizer::parameters_changed` (eq.rs lines 423-464).  The source
rebuilds as soon as the channel count, or some channel's band count,
disagrees with the processor tensor (partial in-place updates made before a
mid-loop rebuild are discarded by the rebuild, so the early-return shape of
the source collapses to this two-way branch); otherwise every chain is
reconciled in place. -/
noncomputable def Equalizer.parametersChanged (eq : Equalizer) : Equalizer :=
  if eq.processors.length = eq.num_channels ∧
      ∀ channel_filters ∈ eq.processors,
        channel_filters.length = eq.filters.length then
    { eq with processors :=
      (eq.processors.map fun channel_filters =>
        List.zipWith
          (fun filter_node biquad_chain =>
            reconcileChain filter_node (eq.sample_rate : ℝ) biquad_chain)
          eq.filters channel_filters) }
  else eq.rebuildProcessors

/-- `Equalizer::update_preset` (eq.rs lines 386-395): a no-op unless the
preset actually changes. -/
noncomputable def Equalizer.updatePreset (eq : Equalizer) (preset : EqPreset) :
    Equalizer :=
  if preset ≠ eq.preset then
    Equalizer.rebuildProcessors
      { eq with preset := preset, filters := preset.setFilters }
  else eq

/-- `Equalizer::reset_parameters` (eq.rs lines 466-470). -/
noncomputable def Equalizer.resetParameters (eq : Equalizer) : Equalizer :=
  Equalizer.parametersChanged
    { eq with filters := eq.preset.setFilters, master_gain := 1 }

/-- `Equalizer::reset_filter_node_param` (eq.rs lines 472-488); the `Bool`
mirrors `Ok`/`Err` (out-of-range index errors out before any mutation). -/
noncomputable def Equalizer.resetFilterNodeParam (eq : Equalizer)
    (node_index : Nat) : Equalizer × Bool :=
  let preset_filters := eq.preset.setFilters
  let default_node := (preset_filters.get? node_index).getD
    { FilterNode.default with id := (node_index : Int) }
  if node_index < eq.filters.length then
    (Equalizer.parametersChanged
      { eq with filters := eq.filters.set node_index default_node }, true)
  else (eq, false)

/-- `f32::EPSILON` = 2⁻²³, used by the master-gain test in `process_frame`. -/
noncomputable def f32Epsilon : ℝ := 1 / 2 ^ 23

/-- One sample through every band of one channel (the two inner loops of
`Equalizer::process_frame`, eq.rs lines 374-380), threading section state. -/
noncomputable def processBands (bands : List (List Biquad)) (sample : ℝ) :
    List (List Biquad) × ℝ :=
  bands.foldl
    (fun acc filter_biquads =>
      let r := filter_biquads.foldl
        (fun acc2 biquad =>
          let r2 := Biquad.process biquad acc2.2
          (acc2.1 ++ [r2.1], r2.2))
        (([] : List Biquad), acc.2)
      (acc.1 ++ [r.1], r.2))
    (([] : List (List Biquad)), sample)

/-- `Equalizer::process_frame` (eq.rs lines 355-384): master gain is applied
first (whenever it differs from 1 by more than `f32::EPSILON`), then — only
when the channel count is nonzero — each sample is run through its channel's
chains.  Returns the updated equalizer (section state advances) and the
processed frame. -/
noncomputable def Equalizer.processFrame (eq : Equalizer) (frame : List ℝ) :
    Equalizer × List ℝ :=
  let frame1 :=
    if |eq.master_gain - 1| > f32Epsilon then frame.map (· * eq.master_gain)
    else frame
  if eq.num_channels = 0 then (eq, frame1)
  else
    let step := fun (acc : List (List (List Biquad)) × List ℝ × Nat) (sample : ℝ) =>
      let channel_idx := acc.2.2 % eq.num_channels
      match acc.1.get? channel_idx with
      | some channel_filters =>
        let r := processBands channel_filters sample
        (acc.1.set channel_idx r.1, r.2 :: acc.2.1, acc.2.2 + 1)
      | none => (acc.1, sample :: acc.2.1, acc.2.2 + 1)
    let r := frame1.foldl step (eq.processors, ([] : List ℝ), 0)
    ({ eq with processors := r.1 }, r.2.1.reverse)

/-! ## DSP node wrapper (`src/audido-core/src/dsp/dsp_graph.rs`) -/

/-- `DspNode<Equalizer>` from dsp_graph.rs (the source field `instance` is a
Lean keyword, rendered `inst`). -/
structure DspNodeEq where
  «on» : Bool
  inst : Equalizer

/-- `DspNode::<Equalizer>::set_filter` (dsp_graph.rs lines 24-29): guarded by
an index bound; runs `parameters_changed`. -/
noncomputable def DspNodeEq.setFilter (d : DspNodeEq) (idx : Nat)
    (node : FilterNode) : DspNodeEq :=
  if idx < d.inst.filters.length then
    { d with inst :=
      (Equalizer.parametersChanged
        { d.inst with filters := d.inst.filters.set idx node }) }
  else d

/-- `DspNode::<Equalizer>::set_all_filters` (dsp_graph.rs lines 31-34). -/
noncomputable def DspNodeEq.setAllFilters (d : DspNodeEq)
    (nodes : List FilterNode) : DspNodeEq :=
  { d with inst := Equalizer.parametersChanged { d.inst with filters := nodes } }

/-- `DspNode::<Equalizer>::set_master_gain` (dsp_graph.rs lines 36-38): a bare
field write, no clamp, no `parameters_changed`. -/
noncomputable def DspNodeEq.setMasterGain (d : DspNodeEq) (gain : ℝ) : DspNodeEq :=
  { d with inst := { d.inst with master_gain := gain } }

/-- Modelled from the spec: the declaration of `RealtimeAudioCommand` is
absent from the provided `commands.rs` (only its callers are in `src/`).
Spec §6 fixes the vocabulary as these seven constructors, and `engine.rs`
constructs all seven. -/
inductive RealtimeAudioCommand where
  | SetEqEnabled (enabled : Bool)
  | SetEqMasterGain (gain : ℝ)
  | UpdateEqFilter (idx : Nat) (filter_node : FilterNode)
  | SetAllEqFilters (filter_nodes : List FilterNode)
  | SetEqPreset (preset : EqPreset)
  | ResetEq
  | ResetEqFilterNode (idx : Nat)

/-- The command dispatch inside `BufferedSource::fill_buffer` (source.rs
lines 252-271).  The source's `match` has arms for exactly five of the seven
command kinds; a command kind with no arm is rendered as `none` (the drained
command has no handler and cannot affect the equalizer). -/
noncomputable def applyRealtimeCommand (cmd : RealtimeAudioCommand)
    (d : DspNodeEq) : Option DspNodeEq :=
  match cmd with
  | .UpdateEqFilter idx filter_node => some (d.setFilter idx filter_node)
  | .SetAllEqFilters filter_nodes => some (d.setAllFilters filter_nodes)
  | .SetEqMasterGain gain => some (d.setMasterGain gain)
  | .SetEqPreset preset => some { d with inst := d.inst.updatePreset preset }
  | .SetEqEnabled enabled => some { d with «on» := enabled }
  | .ResetEq => none
  | .ResetEqFilterNode _ => none

/-- The parameter-change entry points of claim C2 as an operation alphabet. -/
inductive EqOp where
  | paramsChanged
  | rebuild
  | updatePreset (p : EqPreset)
  | resetParams
  | resetFilterNode (idx : Nat)
  | setFilter (idx : Nat) (node : FilterNode)
  | setAllFilters (nodes : List FilterNode)

/-- Interpretation of one parameter-change operation on an equalizer (the
`DspNode` entry points act through the wrapper, whose `on` flag is
irrelevant to the tensor shape). -/
noncomputable def applyEqOp (op : EqOp) (eq : Equalizer) : Equalizer :=
  match op with
  | .paramsChanged => eq.parametersChanged
  | .rebuild => eq.rebuildProcessors
  | .updatePreset p => eq.updatePreset p
  | .resetParams => eq.resetParameters
  | .resetFilterNode idx => (eq.resetFilterNodeParam idx).1
  | .setFilter idx node => (DspNodeEq.setFilter ⟨false, eq⟩ idx node).inst
  | .setAllFilters nodes => (DspNodeEq.setAllFilters ⟨false, eq⟩ nodes).inst

/-! ## f32-level clamping (`FilterNode` setters, eq.rs lines 118-138, and the
`SetVolume` arm of `AudioEngine::process_command`, engine.rs lines 311-317)

`F32` models an `f32` input as NaN, an infinity, or an exact finite value;
`clampTo` follows Rust `f32::clamp` (`if self < min ... else if self > max
... else self`): NaN propagates, infinities clamp to the bounds.  The
documented clamp bounds are exactly representable except 0.1 and 0.707,
whose `f32` rounding is immaterial to the claims. -/

inductive F32 where
  | nan
  | posInf
  | negInf
  | finite (val : ℚ)
deriving DecidableEq, Repr

def F32.clampTo (x : F32) (lo hi : ℚ) : F32 :=
  match x with
  | .nan => .nan
  | .posInf => .finite hi
  | .negInf => .finite lo
  | .finite v => .finite (if v < lo then lo else if v > hi then hi else v)

/-- The read-back value lies in `[lo, hi]` (false for NaN or an infinity). -/
def F32.inRange (x : F32) (lo hi : ℚ) : Prop :=
  match x with
  | .finite v => lo ≤ v ∧ v ≤ hi
  | _ => False

instance : (x : F32) → (lo hi : ℚ) → Decidable (x.inRange lo hi)
  | .nan, _, _ => isFalse id
  | .posInf, _, _ => isFalse id
  | .negInf, _, _ => isFalse id
  | .finite v, lo, hi => inferInstanceAs (Decidable (lo ≤ v ∧ v ≤ hi))

/-- The parameter fields of `FilterNode` at `f32` precision, for the clamping
claims (the real-valued `FilterNode` above models the same struct where exact
float behaviour is immaterial). -/
structure FilterNode32 where
  id : Int
  filter_type : FilterType
  freq : F32
  gain : F32
  q : F32
  order : Nat
deriving DecidableEq, Repr

/-- `FilterNode::set_freq` (eq.rs lines 122-124). -/
def FilterNode32.setFreq (n : FilterNode32) (freq : F32) : FilterNode32 :=
  { n with freq := freq.clampTo 20 20000 }

/-- `FilterNode::set_gain` (eq.rs lines 126-128). -/
def FilterNode32.setGain (n : FilterNode32) (gain : F32) : FilterNode32 :=
  { n with gain := gain.clampTo (-20) 20 }

/-- `FilterNode::set_q_factor` (eq.rs lines 136-138). -/
def FilterNode32.setQFactor (n : FilterNode32) (q : F32) : FilterNode32 :=
  { n with q := q.clampTo (1/10) 10 }

/-- `FilterNode::set_order` (eq.rs lines 130-134): `u8` clamp to `[1, 16]`,
returning the stored value. -/
def FilterNode32.setOrder (n : FilterNode32) (order : Nat) : FilterNode32 × Nat :=
  let new_order := min 16 (max 1 order)
  ({ n with order := new_order }, new_order)

/-- The target volume stored by the `SetVolume` arm of
`AudioEngine::process_command` (engine.rs lines 311-317). -/
def engineSetVolume (volume : F32) : F32 :=
  volume.clampTo 0 1

/-! ## Invariants and sample inputs referenced by the theorems -/

/-- The structural invariant of spec §3/§8 on the processor tensor:
`len(processors) = num_channels`, `len(processors[c]) = len(filters)`, and
`len(processors[c][b]) = max(1, ceil(order_b / 2))`. -/
def StructOk (eq : Equalizer) : Prop :=
  eq.processors.length = eq.num_channels ∧
  ∀ ch ∈ eq.processors,
    ch.length = eq.filters.length ∧
    ∀ pr ∈ List.zip eq.filters ch, pr.2.length = max 1 ((pr.1.order + 1) / 2)

/-- Claim C1's description of a non-structural `parameters_changed` run from
`eq` to `eq'`: filters and sample rate untouched, channel count preserved,
and per band the chain length becomes `ceil(order/2)`; every surviving
section keeps its `z1`/`z2` and merely has its coefficients recomputed
(it equals `update` of the old section); sections appended by growth are
updates of the zero-state section. -/
def NonStructuralUpdateOk (eq eq' : Equalizer) : Prop :=
  eq'.sample_rate = eq.sample_rate ∧ eq'.filters = eq.filters ∧
  eq'.num_channels = eq.num_channels ∧
  eq'.processors.length = eq.processors.length ∧
  ∀ c ch ch', eq.processors.get? c = some ch →
    eq'.processors.get? c = some ch' →
    ∀ b fn chain chain', eq.filters.get? b = some fn →
      ch.get? b = some chain → ch'.get? b = some chain' →
      chain'.length = (fn.order + 1) / 2 ∧
      (∀ j bq bq', chain.get? j = some bq → chain'.get? j = some bq' →
        bq'.z1 = bq.z1 ∧ bq'.z2 = bq.z2 ∧
        bq' = bq.update fn (eq.sample_rate : ℝ)) ∧
      (∀ j bq', chain.length ≤ j → chain'.get? j = some bq' →
        bq' = Biquad.default.update fn (eq.sample_rate : ℝ))

/-- A one-band peaking node used as a concrete witness input. -/
noncomputable def sampleFilterNode : FilterNode :=
  { id := 0, filter_type := .Peaking, freq := 1000, gain := 0, q := 1,
    order := 2 }

/-- A biquad section with distinctive nonzero state, for witness inputs. -/
noncomputable def sampleBiquad : Biquad :=
  { a1 := 3, a2 := 4, b0 := 5, b1 := 6, b2 := 7, z1 := 8, z2 := 9 }

/-- A well-formed one-channel, one-band equalizer used as a witness input. -/
noncomputable def sampleEqualizer : Equalizer :=
  { sample_rate := 48000, preset := .Flat, filters := [sampleFilterNode],
    processors := [[[sampleBiquad]]], master_gain := 1, num_channels := 1 }

/-- A zero-channel equalizer whose master gain is 2 (counterexample input). -/
noncomputable def zeroChannelEq : Equalizer :=
  { sample_rate := 44100, preset := .Flat, filters := [], processors := [],
    master_gain := 2, num_channels := 0 }

/-- A zero-channel equalizer with unit master gain (witness input). -/
noncomputable def zeroChannelUnityEq : Equalizer :=
  { sample_rate := 44100, preset := .Flat, filters := [], processors := [],
    master_gain := 1, num_channels := 0 }

/-- A filter node whose parameters are all inside the documented bounds but
whose centre frequency (20 kHz) exceeds the Nyquist frequency of a 30 kHz
sample rate (counterexample input for the stability claim). -/
noncomputable def nodeAboveNyquist : FilterNode :=
  { id := 0, filter_type := .LowPass, freq := 20000, gain := 0, q := 1,
    order := 2 }

/-- A two-item queue with the first item current, used as a witness input. -/
def sampleQueue : PlaybackQueue :=
  { items := [⟨0, "", none⟩, ⟨1, "", none⟩], current_index := some 0,
    loop_mode := .Off, shuffle_order := [], next_id := 2 }

/-! # Theorems -/

/-- C10: calling `Equalizer::update_preset` with the preset that is already
stored leaves the equalizer entirely unchanged — the filter list (even if
individual filters were edited since the preset was applied), master gain,
preset field, and every biquad's coefficients and `z1`/`z2` state — and no
rebuild occurs. -/
theorem updatePreset_same_preset_noop (eq : Equalizer) (p : EqPreset)
    (h : p = eq.preset) : eq.updatePreset p = eq := by
  simp [Equalizer.updatePreset, h]

theorem updatePreset_same_preset_noop_witness :
    EqPreset.Flat = sampleEqualizer.preset ∧
      sampleEqualizer.updatePreset EqPreset.Flat = sampleEqualizer :=
  ⟨rfl, updatePreset_same_preset_noop sampleEqualizer EqPreset.Flat rfl⟩

/-- C5 counterexample: on a zero-channel equalizer whose master gain is 2,
`process_frame` multiplies every sample by the master gain (the gain pass
precedes the zero-channel early return), so the frame `[1]` changes. -/
theorem processFrame_zero_channels_not_noop :
    (zeroChannelEq.processFrame [1]).2 ≠ [1] := by
  have hg : |zeroChannelEq.master_gain - 1| > f32Epsilon := by
    show |(2 : ℝ) - 1| > f32Epsilon
    rw [show |(2 : ℝ) - 1| = 1 by norm_num]
    unfold f32Epsilon
    norm_num
  have hch : zeroChannelEq.num_channels = 0 := rfl
  simp only [Equalizer.processFrame, if_pos hg, if_pos hch, List.map]
  intro h
  have h2 := List.head_eq_of_cons_eq h
  have : zeroChannelEq.master_gain = 2 := rfl
  rw [this] at h2
  norm_num at h2

/-- C5 amended: with zero channels, `process_frame` is a no-op provided the
master gain is within `f32::EPSILON` of 1; the equalizer state and the frame
are both returned unchanged.  (With a master gain farther from 1 the gain
pass still scales the frame, because it runs before the zero-channel
check.) -/
theorem processFrame_zero_channels_noop (eq : Equalizer) (frame : List ℝ)
    (hch : eq.num_channels = 0) (hg : |eq.master_gain - 1| ≤ f32Epsilon) :
    eq.processFrame frame = (eq, frame) := by
  simp only [Equalizer.processFrame, if_neg (not_lt.mpr hg), if_pos hch]

theorem processFrame_zero_channels_noop_witness :
    zeroChannelUnityEq.num_channels = 0 ∧
      |zeroChannelUnityEq.master_gain - 1| ≤ f32Epsilon ∧
      zeroChannelUnityEq.processFrame [1, 2] = (zeroChannelUnityEq, [1, 2]) := by
  have hg : |zeroChannelUnityEq.master_gain - 1| ≤ f32Epsilon := by
    show |(1 : ℝ) - 1| ≤ f32Epsilon
    unfold f32Epsilon
    norm_num
  exact ⟨rfl, hg, processFrame_zero_channels_noop zeroChannelUnityEq [1, 2] rfl hg⟩

/-- C4 counterexample: seeking to 19/8 s on a 4 Hz mono tracker (all values
exact in `f32`) stores index 9 = trunc(9.5)·1, while the claim's formula
`clamp(round(t·Fs)·channels, 0, total)` yields 10; the code truncates where
the claim rounds. -/
theorem seekToSeconds_truncates_not_rounds :
    (PositionTracker.seekToSeconds ⟨0, 100, 4, 1⟩ (19/8)).position = 9 ∧
      (max 0 (min (round ((19 : ℚ)/8 * ((4 : ℕ) : ℚ)) * (1 : ℕ))
        ((100 : ℕ) : ℤ))).toNat = 10 := by
  constructor
  · show min ((⌊(19 : ℚ)/8 * ((4 : ℕ) : ℚ)⌋).toNat * 1) 100 = 9
    norm_num
    rfl
  · rw [show ((19 : ℚ)/8 * ((4 : ℕ) : ℚ)) = 19/2 by norm_num]
    rw [show round ((19 : ℚ)/2) = 10 by norm_num [round_eq, Int.floor_eq_iff]]
    rfl

/-- C4 amended: `seek_to_seconds(t)` stores
`clamp(trunc(t·Fs)·channels, 0, total)` — truncation toward zero rather than
rounding (`as usize` truncates and saturates at zero) — so the stored index
never exceeds the total sample count; `reset` stores 0. -/
theorem seekToSeconds_clamps (pt : PositionTracker) (t : ℚ) :
    (pt.seekToSeconds t).position = seekSpecIndex pt t ∧
      (pt.seekToSeconds t).position ≤ pt.total_samples ∧
      pt.resetPosition.position = 0 := by
  refine ⟨?_, min_le_right _ _, rfl⟩
  show min ((⌊t * (pt.sample_rate : ℚ)⌋).toNat * pt.channels) pt.total_samples
    = (max 0 (min (⌊t * (pt.sample_rate : ℚ)⌋ * pt.channels)
        (pt.total_samples : ℤ))).toNat
  rcases le_or_lt 0 (⌊t * (pt.sample_rate : ℚ)⌋) with h | h
  · obtain ⟨m, hm⟩ := Int.eq_ofNat_of_zero_le h
    rw [hm]
    rw [show ((m : ℤ) * (pt.channels : ℤ)) = ((m * pt.channels : ℕ) : ℤ) by
      push_cast; ring]
    rw [Int.toNat_ofNat]
    generalize m * pt.channels = k
    omega
  · have h0 : (⌊t * (pt.sample_rate : ℚ)⌋).toNat = 0 := Int.toNat_of_nonpos h.le
    have hk : ⌊t * (pt.sample_rate : ℚ)⌋ * pt.channels ≤ 0 :=
      mul_nonpos_of_nonpos_of_nonneg h.le (by positivity)
    rw [h0, Nat.zero_mul]
    generalize ⌊t * (pt.sample_rate : ℚ)⌋ * (pt.channels : ℤ) = k at hk
    omega

/-- C9 counterexample: `set_freq(NaN)` stores NaN — Rust's `f32::clamp`
propagates NaN — so the stored frequency is not inside [20, 20000]. -/
theorem setFreq_nan_not_in_range :
    ¬ (FilterNode32.setFreq
        ⟨0, .Peaking, .finite 1000, .finite 0, .finite (707/1000), 2⟩
        F32.nan).freq.inRange 20 20000 := by
  decide

/-- Rust `clamp` stores an in-range value for every non-NaN input. -/
theorem F32.clampTo_inRange (x : F32) (lo hi : ℚ) (hx : x ≠ .nan)
    (hlohi : lo ≤ hi) : (x.clampTo lo hi).inRange lo hi := by
  cases x with
  | nan => exact absurd rfl hx
  | posInf => exact ⟨hlohi, le_refl hi⟩
  | negInf => exact ⟨le_refl lo, hlohi⟩
  | finite v =>
    show F32.inRange (.finite (if v < lo then lo else if v > hi then hi else v)) lo hi
    split_ifs with h1 h2
    · exact ⟨le_refl lo, hlohi⟩
    · exact ⟨hlohi, le_refl hi⟩
    · exact ⟨not_lt.mp h1, not_lt.mp h2⟩

/-- C9 amended: for every non-NaN raw input (including infinities) the value
read back from each mutator is inside its documented range — `set_freq` into
[20, 20000], `set_gain` into [-20, 20], `set_q_factor` into [0.1, 10],
`set_order` into [1, 16], and the engine's `SetVolume` into [0, 1].  (A NaN
input is stored as NaN by the `f32` clamp, the subject of the
counterexample.) -/
theorem setters_store_in_range (n : FilterNode32) (x : F32) (o : Nat)
    (hx : x ≠ .nan) :
    (n.setFreq x).freq.inRange 20 20000 ∧
      (n.setGain x).gain.inRange (-20) 20 ∧
      (n.setQFactor x).q.inRange (1/10) 10 ∧
      (1 ≤ (n.setOrder o).1.order ∧ (n.setOrder o).1.order ≤ 16 ∧
        (n.setOrder o).2 = (n.setOrder o).1.order) ∧
      (engineSetVolume x).inRange 0 1 := by
  refine ⟨?_, ?_, ?_, ⟨?_, ?_, rfl⟩, ?_⟩
  · exact F32.clampTo_inRange x 20 20000 hx (by norm_num)
  · exact F32.clampTo_inRange x (-20) 20 hx (by norm_num)
  · exact F32.clampTo_inRange x (1/10) 10 hx (by norm_num)
  · show 1 ≤ min 16 (max 1 o)
    omega
  · show min 16 (max 1 o) ≤ 16
    omega
  · exact F32.clampTo_inRange x 0 1 hx (by norm_num)

theorem setters_store_in_range_witness :
    (F32.finite 123456 ≠ F32.nan) ∧
      ((FilterNode32.setFreq
          ⟨0, .Peaking, .finite 1000, .finite 0, .finite (707/1000), 2⟩
          (.finite 123456)).freq.inRange 20 20000 ∧
        (FilterNode32.setGain
          ⟨0, .Peaking, .finite 1000, .finite 0, .finite (707/1000), 2⟩
          (.finite 123456)).gain.inRange (-20) 20 ∧
        (FilterNode32.setQFactor
          ⟨0, .Peaking, .finite 1000, .finite 0, .finite (707/1000), 2⟩
          (.finite 123456)).q.inRange (1/10) 10 ∧
        (1 ≤ (FilterNode32.setOrder
            ⟨0, .Peaking, .finite 1000, .finite 0, .finite (707/1000), 2⟩
            99).1.order ∧
          (FilterNode32.setOrder
            ⟨0, .Peaking, .finite 1000, .finite 0, .finite (707/1000), 2⟩
            99).1.order ≤ 16 ∧
          (FilterNode32.setOrder
            ⟨0, .Peaking, .finite 1000, .finite 0, .finite (707/1000), 2⟩
            99).2 = (FilterNode32.setOrder
            ⟨0, .Peaking, .finite 1000, .finite 0, .finite (707/1000), 2⟩
            99).1.order) ∧
        (engineSetVolume (.finite 123456)).inRange 0 1) :=
  ⟨by decide,
   setters_store_in_range
     ⟨0, .Peaking, .finite 1000, .finite 0, .finite (707/1000), 2⟩
     (.finite 123456) 99 (by decide)⟩

/-- C3: the realtime-command drain in `BufferedSource::fill_buffer`
recognizes and applies only five of the spec's seven command kinds — the two
reset commands (`ResetEq`, `ResetEqFilterNode`) have no `match` arm, so a
drained reset command cannot touch the owned equalizer, even though the
engine sends both. -/
theorem fillBuffer_drain_misses_reset_commands (d : DspNodeEq) (idx : Nat)
    (node : FilterNode) (nodes : List FilterNode) (g : ℝ) (p : EqPreset)
    (en : Bool) :
    (applyRealtimeCommand .ResetEq d = none ∧
      applyRealtimeCommand (.ResetEqFilterNode idx) d = none) ∧
      ((applyRealtimeCommand (.SetEqEnabled en) d).isSome ∧
        (applyRealtimeCommand (.SetEqMasterGain g) d).isSome ∧
        (applyRealtimeCommand (.UpdateEqFilter idx node) d).isSome ∧
        (applyRealtimeCommand (.SetAllEqFilters nodes) d).isSome ∧
        (applyRealtimeCommand (.SetEqPreset p) d).isSome) :=
  ⟨⟨rfl, rfl⟩, ⟨rfl, rfl, rfl, rfl, rfl⟩⟩

/-! ### Helper lemmas on `listPosition` (Rust `Iterator::position`) -/

lemma listPosition_lt {p : α → Bool} :
    ∀ {l : List α} {k : Nat}, listPosition p l = some k → k < l.length := by
  intro l
  induction l with
  | nil => intro k h; simp [listPosition] at h
  | cons a t ih =>
    intro k h
    rw [listPosition] at h
    split_ifs at h with hp
    · cases h
      simp
    · rw [Option.map_eq_some'] at h
      obtain ⟨k', hk', rfl⟩ := h
      have := ih hk'
      simp only [List.length_cons]
      omega

lemma listPosition_getD {p : α → Bool} (d : α) :
    ∀ {l : List α} {k : Nat}, listPosition p l = some k →
      p (l.getD k d) = true := by
  intro l
  induction l with
  | nil => intro k h; simp [listPosition] at h
  | cons a t ih =>
    intro k h
    rw [listPosition] at h
    split_ifs at h with hp
    · cases h
      exact hp
    · rw [Option.map_eq_some'] at h
      obtain ⟨k', hk', rfl⟩ := h
      simpa using ih hk'

lemma listPosition_isSome {p : α → Bool} :
    ∀ {l : List α}, (∃ x ∈ l, p x = true) →
      ∃ k, listPosition p l = some k := by
  intro l
  induction l with
  | nil => rintro ⟨x, hx, -⟩; simp at hx
  | cons a t ih =>
    rintro ⟨x, hx, hpx⟩
    by_cases hp : p a
    · exact ⟨0, by rw [listPosition]; simp [hp]⟩
    · rcases List.mem_cons.mp hx with rfl | hxt
      · exact absurd hpx hp
      · obtain ⟨k, hk⟩ := ih ⟨x, hxt, hpx⟩
        exact ⟨k + 1, by rw [listPosition]; simp [hp, hk]⟩

/-- In a duplicate-free list of naturals, `position (== a)` returns exactly
the index where `a` sits. -/
lemma listPosition_eq_of_getD {l : List Nat} (hnd : l.Nodup) {k a : Nat}
    (hk : k < l.length) (ha : l.getD k 0 = a) :
    listPosition (fun x => x == a) l = some k := by
  have hmem : a ∈ l := by
    rw [← ha, List.getD_eq_getElem l 0 hk]
    exact List.getElem_mem hk
  obtain ⟨k2, hk2⟩ := listPosition_isSome (p := fun x => x == a)
    ⟨a, hmem, by simp⟩
  have hk2lt := listPosition_lt hk2
  have hk2a : l.getD k2 0 = a := by
    have := listPosition_getD 0 hk2
    simpa using this
  have : k2 = k := by
    rw [List.getD_eq_getElem l 0 hk2lt] at hk2a
    rw [List.getD_eq_getElem l 0 hk] at ha
    have := hk2a.trans ha.symm
    exact (List.Nodup.getElem_inj_iff hnd).mp this
  rw [← this]
  exact hk2

/-- C6: on a non-empty queue with a current index (in range, with the spec's
shuffle invariant when in Shuffle mode): in `RepeatOne` mode both
`next_index` and `prev_index` return the current index itself, and in every
other mode `prev_index` taken at the result of `next_index` returns to the
original index. -/
theorem queue_next_prev_inverse (q : PlaybackQueue) (i : Nat)
    (hcur : q.current_index = some i) (hlen : i < q.items.length)
    (hsh : q.loop_mode = .Shuffle →
      q.shuffle_order.Nodup ∧
        ∀ x, x ∈ q.shuffle_order ↔ x < q.items.length) :
    (q.loop_mode = .RepeatOne →
      q.nextIndex = some i ∧ q.prevIndex = some i) ∧
    (q.loop_mode ≠ .RepeatOne → ∀ j, q.nextIndex = some j →
      PlaybackQueue.prevIndex { q with current_index := some j } = some i) := by
  obtain ⟨items, ci, lm, so, nid⟩ := q
  simp only at hcur hlen hsh ⊢
  subst hcur
  have hne : items ≠ [] := by
    intro h
    rw [h] at hlen
    simp at hlen
  constructor
  · intro hmode
    subst hmode
    unfold PlaybackQueue.nextIndex PlaybackQueue.prevIndex
    simp only [if_neg hne]
    constructor <;> trivial
  · intro hmode j hj
    unfold PlaybackQueue.nextIndex at hj
    simp only [if_neg hne] at hj
    unfold PlaybackQueue.prevIndex
    simp only [if_neg hne]
    cases lm with
    | Off =>
      split_ifs at hj with hlt
      · cases hj
        simp only [Nat.add_sub_cancel]
        rw [if_pos (Nat.succ_pos i)]
    | RepeatOne => exact absurd rfl hmode
    | LoopAll =>
      simp only at hj
      cases hj
      rcases Nat.lt_or_ge (i + 1) items.length with hlt | hge
      · rw [Nat.mod_eq_of_lt hlt]
        rw [if_pos (Nat.succ_pos i)]
        simp
      · have hiN : i + 1 = items.length := by omega
        rw [hiN, Nat.mod_self]
        show some (items.length - 1) = some i
        have hlast : items.length - 1 = i := by omega
        rw [hlast]
    | Shuffle =>
      obtain ⟨hnd, hperm⟩ := hsh rfl
      have hiL : i ∈ so := (hperm i).mpr hlen
      obtain ⟨pp, hpp⟩ := listPosition_isSome (p := fun x => x == i)
        ⟨i, hiL, by simp⟩
      rw [hpp] at hj
      simp only at hj
      cases hj
      have hpplt := listPosition_lt hpp
      have hL0 : 0 < so.length := by omega
      have hjlt : (pp + 1) % so.length < so.length := Nat.mod_lt _ hL0
      have hpos2 : listPosition
          (fun x => x == so.getD ((pp + 1) % so.length) 0) so
          = some ((pp + 1) % so.length) :=
        listPosition_eq_of_getD hnd hjlt rfl
      rw [hpos2]
      have hidx : (if (pp + 1) % so.length > 0 then (pp + 1) % so.length - 1
          else so.length - 1) = pp := by
        rcases Nat.lt_or_ge (pp + 1) so.length with hlt | hge
        · rw [Nat.mod_eq_of_lt hlt, if_pos (Nat.succ_pos pp)]
          omega
        · have hpL : pp + 1 = so.length := by omega
          rw [hpL, Nat.mod_self, if_neg (lt_irrefl 0)]
          omega
      show some (so.getD
        (if (pp + 1) % so.length > 0 then (pp + 1) % so.length - 1
         else so.length - 1) 0) = some i
      rw [hidx]
      have hgot : so.getD pp 0 = i := by
        have := listPosition_getD 0 hpp
        simpa using this
      rw [hgot]

theorem queue_next_prev_inverse_witness :
    sampleQueue.current_index = some 0 ∧
      0 < sampleQueue.items.length ∧
      (sampleQueue.loop_mode = .Shuffle →
        sampleQueue.shuffle_order.Nodup ∧
          ∀ x, x ∈ sampleQueue.shuffle_order ↔ x < sampleQueue.items.length) ∧
      ((sampleQueue.loop_mode = .RepeatOne →
          sampleQueue.nextIndex = some 0 ∧ sampleQueue.prevIndex = some 0) ∧
        (sampleQueue.loop_mode ≠ .RepeatOne →
          ∀ j, sampleQueue.nextIndex = some j →
            PlaybackQueue.prevIndex
              { sampleQueue with current_index := some j } = some 0)) :=
  ⟨rfl, by decide, fun h => absurd h (by decide),
    queue_next_prev_inverse sampleQueue 0 rfl (by decide)
      (fun h => absurd h (by decide))⟩

lemma length_eraseIdx_add_one :
    ∀ {l : List α} {i : Nat}, i < l.length →
      (l.eraseIdx i).length + 1 = l.length := by
  intro l
  induction l with
  | nil => intro i h; simp at h
  | cons a t ih =>
    intro i h
    cases i with
    | zero => simp [List.eraseIdx]
    | succ n =>
      have h' : n < t.length := by
        simp only [List.length_cons] at h
        omega
      have := ih h'
      simp only [List.eraseIdx, List.length_cons]
      omega

/-- C7: removing a present item reduces the count by exactly one and leaves
the current index valid — decremented when the removed position is before
the current index, clamped to the new last index when the removed item was
current and last, kept otherwise, and `None` exactly when the queue becomes
empty. -/
theorem queue_remove_keeps_index_valid (q : PlaybackQueue) (rnd : List Nat)
    (id idx : Nat) (hmem : ∃ it ∈ q.items, it.id = id)
    (hcur : q.current_index = some idx) (hidx : idx < q.items.length) :
    ((q.removeItem rnd id).2 = true ∧
      (q.removeItem rnd id).1.items.length + 1 = q.items.length) ∧
    ((q.removeItem rnd id).1.items = [] ↔
      (q.removeItem rnd id).1.current_index = none) ∧
    (∀ k, (q.removeItem rnd id).1.current_index = some k →
      k < (q.removeItem rnd id).1.items.length) ∧
    (∀ pos, listPosition (fun item => item.id == id) q.items = some pos →
      (pos < idx → (q.removeItem rnd id).1.current_index = some (idx - 1)) ∧
      (pos = idx → idx + 1 = q.items.length → 1 < q.items.length →
        (q.removeItem rnd id).1.current_index = some (q.items.length - 2)) ∧
      (idx < pos → (q.removeItem rnd id).1.current_index = some idx)) := by
  obtain ⟨items, ci, lm, so, nid⟩ := q
  simp only at hmem hcur hidx ⊢
  subst hcur
  obtain ⟨it, hin, hid⟩ := hmem
  obtain ⟨pos0, hpos0⟩ :=
    listPosition_isSome (p := fun item => item.id == id) ⟨it, hin, by simp [hid]⟩
  have hposlt : pos0 < items.length := listPosition_lt hpos0
  have hlenE : (items.eraseIdx pos0).length + 1 = items.length :=
    length_eraseIdx_add_one hposlt
  simp only [PlaybackQueue.removeItem, hpos0]
  refine ⟨⟨by trivial, hlenE⟩, ?_, ?_, ?_⟩
  · split_ifs with h1 h2 h3 h4
    · constructor
      · intro h
        rw [h] at hlenE
        simp at hlenE
        omega
      · intro h
        exact h.elim
    · exact ⟨fun _ => rfl, fun _ => h3⟩
    · exact ⟨fun h => absurd h h3, fun h => h.elim⟩
    · exact ⟨fun h => absurd h h3, fun h => h.elim⟩
    · constructor
      · intro h
        rw [h] at hlenE
        simp at hlenE
        omega
      · intro h
        exact h.elim
  · intro k hk
    split_ifs at hk with h1 h2 h3 h4
    · cases hk
      omega
    · cases hk
      have hpos : 0 < (items.eraseIdx pos0).length := List.length_pos.mpr h3
      omega
    · cases hk
      omega
    · cases hk
      omega
  · intro pos hpos
    have hpe : pos0 = pos := Option.some.inj hpos
    subst hpe
    refine ⟨?_, ?_, ?_⟩
    · intro hlt
      rw [if_pos hlt]
    · intro hpi hlast hbig
      have hEne : ¬(items.eraseIdx pos0 = []) := by
        intro h
        rw [h] at hlenE
        simp at hlenE
        omega
      rw [if_neg (by omega), if_pos hpi, if_neg hEne,
        if_pos (by omega : (items.eraseIdx pos0).length ≤ idx)]
      have hv : (items.eraseIdx pos0).length - 1 = items.length - 2 := by omega
      rw [hv]
    · intro hgt
      rw [if_neg (by omega), if_neg (by omega)]

theorem queue_remove_keeps_index_valid_witness :
    (∃ it ∈ sampleQueue.items, it.id = 1) ∧
      sampleQueue.current_index = some 0 ∧
      0 < sampleQueue.items.length ∧
      (((sampleQueue.removeItem [] 1).2 = true ∧
        (sampleQueue.removeItem [] 1).1.items.length + 1 =
          sampleQueue.items.length) ∧
      ((sampleQueue.removeItem [] 1).1.items = [] ↔
        (sampleQueue.removeItem [] 1).1.current_index = none) ∧
      (∀ k, (sampleQueue.removeItem [] 1).1.current_index = some k →
        k < (sampleQueue.removeItem [] 1).1.items.length) ∧
      (∀ pos, listPosition (fun item => item.id == 1) sampleQueue.items
          = some pos →
        (pos < 0 → (sampleQueue.removeItem [] 1).1.current_index = some (0 - 1)) ∧
        (pos = 0 → 0 + 1 = sampleQueue.items.length →
          1 < sampleQueue.items.length →
          (sampleQueue.removeItem [] 1).1.current_index =
            some (sampleQueue.items.length - 2)) ∧
        (0 < pos → (sampleQueue.removeItem [] 1).1.current_index = some 0))) :=
  ⟨⟨⟨1, "", none⟩, by decide, rfl⟩, rfl, by decide,
    queue_remove_keeps_index_valid sampleQueue [] 1 0
      ⟨⟨1, "", none⟩, by decide, rfl⟩ rfl (by decide)⟩

/-! ### Structural invariant lemmas for the processor tensor -/

lemma biquadCount_eq_max (o : Nat) : biquadCount o = max 1 ((o + 1) / 2) := by
  simp only [biquadCount]
  split <;> omega

lemma length_reconcileChain (fn : FilterNode) (sr : ℝ) (chain : List Biquad) :
    (reconcileChain fn sr chain).length = biquadCount fn.order := by
  simp only [reconcileChain, List.length_map]
  split_ifs with h1 h2
  · simp only [List.length_append, List.length_replicate]
    omega
  · simp only [List.length_take]
    omega
  · omega

lemma mem_zip_map_self {l : List α} {f : α → β} :
    ∀ {pr : α × β}, pr ∈ List.zip l (l.map f) → pr.2 = f pr.1 := by
  induction l with
  | nil => intro pr h; simp at h
  | cons a t ih =>
    intro pr h
    rw [List.map_cons, List.zip_cons_cons] at h
    rcases List.mem_cons.mp h with rfl | h2
    · rfl
    · exact ih h2

lemma mem_zip_zipWith {g : α → γ → β} :
    ∀ {l : List α} {m : List γ} {pr : α × β},
      pr ∈ List.zip l (List.zipWith g l m) → ∃ c, pr.2 = g pr.1 c := by
  intro l
  induction l with
  | nil => intro m pr h; simp at h
  | cons a t ih =>
    intro m pr h
    cases m with
    | nil => simp at h
    | cons c ms =>
      rw [List.zipWith_cons_cons, List.zip_cons_cons] at h
      rcases List.mem_cons.mp h with rfl | h2
      · exact ⟨c, rfl⟩
      · exact ih h2

lemma structOk_rebuild (eq : Equalizer) : StructOk eq.rebuildProcessors := by
  unfold StructOk Equalizer.rebuildProcessors
  refine ⟨by simp, ?_⟩
  intro ch hch
  simp only [List.mem_replicate] at hch
  obtain ⟨-, rfl⟩ := hch
  refine ⟨by simp, ?_⟩
  intro pr hpr
  have h2 := mem_zip_map_self hpr
  rw [h2, List.length_replicate, biquadCount_eq_max]

lemma structOk_parametersChanged (eq : Equalizer) :
    StructOk eq.parametersChanged := by
  unfold Equalizer.parametersChanged
  split_ifs with h
  · obtain ⟨hlen, hch⟩ := h
    unfold StructOk
    refine ⟨by simp [hlen], ?_⟩
    intro ch hmem
    simp only [List.mem_map] at hmem
    obtain ⟨ch0, hch0, rfl⟩ := hmem
    refine ⟨?_, ?_⟩
    · rw [List.length_zipWith, hch ch0 hch0]
      simp
    · intro pr hpr
      obtain ⟨c, hc⟩ := mem_zip_zipWith hpr
      rw [hc, length_reconcileChain, biquadCount_eq_max]
  · exact structOk_rebuild eq

lemma structOk_applyEqOp (op : EqOp) (eq : Equalizer) (h : StructOk eq) :
    StructOk (applyEqOp op eq) := by
  cases op with
  | paramsChanged => exact structOk_parametersChanged eq
  | rebuild => exact structOk_rebuild eq
  | updatePreset p =>
    show StructOk (eq.updatePreset p)
    unfold Equalizer.updatePreset
    split_ifs with hp
    · exact structOk_rebuild _
    · exact h
  | resetParams => exact structOk_parametersChanged _
  | resetFilterNode idx =>
    show StructOk (eq.resetFilterNodeParam idx).1
    unfold Equalizer.resetFilterNodeParam
    split_ifs with hidx
    · exact structOk_parametersChanged _
    · exact h
  | setFilter idx node =>
    show StructOk (DspNodeEq.setFilter ⟨false, eq⟩ idx node).inst
    unfold DspNodeEq.setFilter
    split_ifs with hidx
    · exact structOk_parametersChanged _
    · exact h
  | setAllFilters nodes => exact structOk_parametersChanged _

/-- C2: after any sequence of the parameter-change operations
(`parameters_changed`, `rebuild_processors`, `update_preset`,
`reset_parameters`, `reset_filter_node_param`, and the `DspNode`
`set_filter`/`set_all_filters` entry points) applied to a freshly built
equalizer, the processor tensor satisfies `len(processors) = num_channels`,
`len(processors[c]) = len(filters)` for every channel, and
`len(processors[c][b]) = max(1, ceil(order_b/2))` for every band. -/
theorem eq_ops_satisfy_structural_invariant (sample_rate num_channels : Nat)
    (ops : List EqOp) :
    StructOk (ops.foldl (fun eq op => applyEqOp op eq)
      (Equalizer.new sample_rate num_channels)) := by
  have h0 : StructOk (Equalizer.new sample_rate num_channels) :=
    structOk_rebuild _
  revert h0
  generalize Equalizer.new sample_rate num_channels = eq0
  induction ops generalizing eq0 with
  | nil => exact fun h0 => h0
  | cons op t ih =>
    intro h0
    exact ih _ (structOk_applyEqOp op eq0 h0)

/-! ### Non-structural update: state preservation (claim C1) -/

lemma Biquad.update_keeps_state (b : Biquad) (fn : FilterNode) (sr : ℝ) :
    (b.update fn sr).z1 = b.z1 ∧ (b.update fn sr).z2 = b.z2 := by
  simp only [Biquad.update]
  exact ⟨trivial, trivial⟩

lemma get?_zipWith {f : α → β → γ} :
    ∀ {l : List α} {m : List β} {i : Nat},
      (List.zipWith f l m).get? i =
        match l.get? i, m.get? i with
        | some a, some b => some (f a b)
        | _, _ => none := by
  intro l
  induction l with
  | nil => intro m i; cases m <;> cases i <;> rfl
  | cons a t ih =>
    intro m i
    cases m with
    | nil =>
      cases i with
      | zero => rfl
      | succ n => cases h : (a :: t).get? (n + 1) <;> rfl
    | cons b ms =>
      cases i with
      | zero => rfl
      | succ n =>
        simp only [List.zipWith_cons_cons, List.get?_cons_succ]
        exact ih

lemma get?_lt_length {l : List α} {n : Nat} {a : α} (h : l.get? n = some a) :
    n < l.length := by
  by_contra hcon
  rw [List.get?_eq_none.mpr (le_of_not_lt hcon)] at h
  cases h

lemma get?_replicate {a : α} :
    ∀ {n m : Nat}, m < n → (List.replicate n a).get? m = some a := by
  intro n
  induction n with
  | zero => intro m h; omega
  | succ k ih =>
    intro m h
    cases m with
    | zero => rfl
    | succ m' =>
      simp only [List.replicate, List.get?_cons_succ]
      exact ih (by omega)

/-- C1: when the channel count matches the processor tensor and every
channel's band count matches the filter list (band orders in the documented
range), `parameters_changed` takes the non-structural path: it keeps
filters, sample rate, channel and tensor sizes; each band's chain is resized
to `ceil(order/2)`; every surviving section keeps its `z1`/`z2` exactly and
has only its five coefficients recomputed; grown sections are zero-state. -/
theorem parametersChanged_nonstructural (eq : Equalizer)
    (hch : eq.processors.length = eq.num_channels)
    (hbands : ∀ ch ∈ eq.processors, ch.length = eq.filters.length)
    (hord : ∀ fn ∈ eq.filters, 1 ≤ fn.order) :
    NonStructuralUpdateOk eq eq.parametersChanged := by
  unfold Equalizer.parametersChanged
  rw [if_pos ⟨hch, hbands⟩]
  unfold NonStructuralUpdateOk
  refine ⟨rfl, rfl, rfl, by simp, ?_⟩
  intro c ch ch' hc hc' b fn chain chain' hb hchain hchain'
  rw [List.get?_map, hc, Option.map_some'] at hc'
  have hch' : ch' = List.zipWith
      (fun filter_node biquad_chain =>
        reconcileChain filter_node (eq.sample_rate : ℝ) biquad_chain)
      eq.filters ch := (Option.some.inj hc').symm
  subst hch'
  rw [get?_zipWith, hb, hchain] at hchain'
  have hcc : chain' = reconcileChain fn (eq.sample_rate : ℝ) chain :=
    (Option.some.inj hchain').symm
  subst hcc
  have hord1 : 1 ≤ fn.order := hord fn (List.get?_mem hb)
  have hcount : biquadCount fn.order = (fn.order + 1) / 2 := by
    simp only [biquadCount]
    split <;> omega
  refine ⟨by rw [length_reconcileChain, hcount], ?_, ?_⟩
  · intro j bq bq' hbq hbq'
    have hjchain : j < chain.length := get?_lt_length hbq
    have hjcount : j < biquadCount fn.order := by
      have h := get?_lt_length hbq'
      rwa [length_reconcileChain] at h
    have hres : (reconcileChain fn (eq.sample_rate : ℝ) chain).get? j =
        some (bq.update fn (eq.sample_rate : ℝ)) := by
      simp only [reconcileChain]
      rw [List.get?_map]
      split_ifs with h1 h2
      · rw [List.get?_append hjchain, hbq, Option.map_some']
      · rw [List.get?_take hjcount, hbq, Option.map_some']
      · rw [hbq, Option.map_some']
    rw [hres] at hbq'
    have hb' : bq' = bq.update fn (eq.sample_rate : ℝ) :=
      (Option.some.inj hbq').symm
    subst hb'
    exact ⟨(Biquad.update_keeps_state bq fn _).1,
      (Biquad.update_keeps_state bq fn _).2, rfl⟩
  · intro j bq' hjge hbq'
    have hjcount : j < biquadCount fn.order := by
      have h := get?_lt_length hbq'
      rwa [length_reconcileChain] at h
    have hres : (reconcileChain fn (eq.sample_rate : ℝ) chain).get? j =
        some (Biquad.default.update fn (eq.sample_rate : ℝ)) := by
      simp only [reconcileChain]
      rw [List.get?_map]
      split_ifs with h1 h2
      · rw [List.get?_append_right hjge, get?_replicate (by omega),
          Option.map_some']
      · exact absurd hjcount (by omega)
      · exact absurd hjcount (by omega)
    rw [hres] at hbq'
    exact (Option.some.inj hbq').symm

theorem parametersChanged_nonstructural_witness :
    sampleEqualizer.processors.length = sampleEqualizer.num_channels ∧
      (∀ ch ∈ sampleEqualizer.processors,
        ch.length = sampleEqualizer.filters.length) ∧
      (∀ fn ∈ sampleEqualizer.filters, 1 ≤ fn.order) ∧
      NonStructuralUpdateOk sampleEqualizer
        sampleEqualizer.parametersChanged :=
  ⟨rfl, by simp [sampleEqualizer], by simp [sampleEqualizer, sampleFilterNode],
    parametersChanged_nonstructural sampleEqualizer rfl
      (by simp [sampleEqualizer])
      (by simp [sampleEqualizer, sampleFilterNode])⟩

/-! ### Biquad stability (claim C8) -/

lemma abs_mul_inv_lt {x y k : ℝ} (hy : 0 < y) (h : |x| < k * y) :
    |x * (1 / y)| < k := by
  rw [abs_mul, abs_of_pos (by positivity : (0:ℝ) < 1 / y), mul_one_div,
    div_lt_iff hy]
  exact h

/-- The normalized feedback coefficients of every RBJ design are inside the
stability region whenever `cos w0` is strictly inside `(-1, 1)`, `alpha` is
positive and the linear amplitude is positive. -/
lemma calcCoeffs_stable (ft : FilterType) (c α a : ℝ)
    (hc1 : -1 < c) (hc2 : c < 1) (hα : 0 < α) (ha : 0 < a) :
    ∀ b0 b1 b2 a0 a1 a2,
      Biquad.calculateCoefficients c α a ft = (b0, b1, b2, a0, a1, a2) →
      |a1 * (1 / a0)| < 2 ∧ |a2 * (1 / a0)| < 1 := by
  intro b0 b1 b2 a0 a1 a2 hC
  have hs2 : Real.sqrt a * Real.sqrt a = a := Real.mul_self_sqrt ha.le
  have hs0 : 0 < Real.sqrt a := Real.sqrt_pos.mpr ha
  cases ft <;>
    simp only [Biquad.calculateCoefficients, Prod.mk.injEq] at hC <;>
    obtain ⟨h1, h2, h3, h4, h5, h6⟩ := hC <;>
    subst h1 <;> subst h2 <;> subst h3 <;> subst h4 <;> subst h5 <;> subst h6
  case Peaking =>
    have haa : 0 < α / a := div_pos hα ha
    have ha0 : (0:ℝ) < 1 + α / a := by linarith
    constructor
    · apply abs_mul_inv_lt ha0
      rw [abs_lt]
      constructor <;> nlinarith
    · apply abs_mul_inv_lt ha0
      rw [abs_lt]
      constructor <;> nlinarith
  case LowPass =>
    have ha0 : (0:ℝ) < 1 + α := by linarith
    constructor
    · apply abs_mul_inv_lt ha0
      rw [abs_lt]
      constructor <;> nlinarith
    · apply abs_mul_inv_lt ha0
      rw [abs_lt]
      constructor <;> nlinarith
  case HighPass =>
    have ha0 : (0:ℝ) < 1 + α := by linarith
    constructor
    · apply abs_mul_inv_lt ha0
      rw [abs_lt]
      constructor <;> nlinarith
    · apply abs_mul_inv_lt ha0
      rw [abs_lt]
      constructor <;> nlinarith
  case BandPass =>
    have ha0 : (0:ℝ) < 1 + α := by linarith
    constructor
    · apply abs_mul_inv_lt ha0
      rw [abs_lt]
      constructor <;> nlinarith
    · apply abs_mul_inv_lt ha0
      rw [abs_lt]
      constructor <;> nlinarith
  case Notch =>
    have ha0 : (0:ℝ) < 1 + α := by linarith
    constructor
    · apply abs_mul_inv_lt ha0
      rw [abs_lt]
      constructor <;> nlinarith
    · apply abs_mul_inv_lt ha0
      rw [abs_lt]
      constructor <;> nlinarith
  case LowShelf =>
    have hP : (0:ℝ) < (a + 1) + (a - 1) * c := by
      nlinarith [mul_pos ha (show (0:ℝ) < 1 + c by linarith)]
    have hsα : 0 < Real.sqrt a * α := mul_pos hs0 hα
    have ha0 : (0:ℝ) < (a + 1) + (a - 1) * c + 2 * Real.sqrt a * α := by
      nlinarith
    constructor
    · apply abs_mul_inv_lt ha0
      rw [abs_lt]
      constructor
      · nlinarith [mul_pos ha (show (0:ℝ) < 1 + c by linarith)]
      · nlinarith
    · apply abs_mul_inv_lt ha0
      rw [abs_lt]
      constructor <;> nlinarith
  case HighShelf =>
    have hP : (0:ℝ) < (a + 1) - (a - 1) * c := by
      nlinarith [mul_pos ha (show (0:ℝ) < 1 - c by linarith)]
    have hsα : 0 < Real.sqrt a * α := mul_pos hs0 hα
    have ha0 : (0:ℝ) < (a + 1) - (a - 1) * c + 2 * Real.sqrt a * α := by
      nlinarith
    constructor
    · apply abs_mul_inv_lt ha0
      rw [abs_lt]
      constructor
      · nlinarith [mul_pos ha (show (0:ℝ) < 1 - c by linarith)]
      · nlinarith
    · apply abs_mul_inv_lt ha0
      rw [abs_lt]
      constructor <;> nlinarith

/-- C8 amended: for every filter node with positive frequency and Q (which
covers the documented bounds freq in [20, 20000], Q in [0.1, 10], any gain,
any order) at a sample rate strictly above twice the centre frequency, the
normalized feedback coefficients stored by `Biquad::update` satisfy
`|a1| < 2` and `|a2| < 1`. -/
theorem biquad_update_stable (b : Biquad) (fn : FilterNode) (sr : ℝ)
    (hf : 0 < fn.freq) (hq : 0 < fn.q) (hny : 2 * fn.freq < sr) :
    |(b.update fn sr).a1| < 2 ∧ |(b.update fn sr).a2| < 1 := by
  have hsr : 0 < sr := lt_trans (by positivity) hny
  have hpi := Real.pi_pos
  have hw0pos : 0 < 2 * Real.pi * fn.freq / sr := by positivity
  have hw0lt : 2 * Real.pi * fn.freq / sr < Real.pi := by
    rw [div_lt_iff hsr]
    nlinarith
  have hsin : 0 < Real.sin (2 * Real.pi * fn.freq / sr) :=
    Real.sin_pos_of_pos_of_lt_pi hw0pos hw0lt
  have halpha : 0 < Real.sin (2 * Real.pi * fn.freq / sr) / (2 * fn.q) :=
    div_pos hsin (by positivity)
  have hpyth := Real.sin_sq_add_cos_sq (2 * Real.pi * fn.freq / sr)
  have hcos2 : Real.cos (2 * Real.pi * fn.freq / sr) ^ 2 < 1 := by
    nlinarith
  have hc1 : -1 < Real.cos (2 * Real.pi * fn.freq / sr) := by nlinarith
  have hc2 : Real.cos (2 * Real.pi * fn.freq / sr) < 1 := by nlinarith
  have ha : (0:ℝ) < (10 : ℝ) ^ (fn.gain / 40) :=
    Real.rpow_pos_of_pos (by norm_num) _
  simp only [Biquad.update]
  rcases hC : Biquad.calculateCoefficients
      (Real.cos (2 * Real.pi * fn.freq / sr))
      (Real.sin (2 * Real.pi * fn.freq / sr) / (2 * fn.q))
      ((10 : ℝ) ^ (fn.gain / 40)) fn.filter_type
    with ⟨b0, b1, b2, a0, a1, a2⟩
  exact calcCoeffs_stable fn.filter_type _ _ _ hc1 hc2 halpha ha
    b0 b1 b2 a0 a1 a2 hC

theorem biquad_update_stable_witness :
    (0 < sampleFilterNode.freq ∧ 0 < sampleFilterNode.q ∧
      2 * sampleFilterNode.freq < 48000) ∧
      (|(sampleBiquad.update sampleFilterNode 48000).a1| < 2 ∧
        |(sampleBiquad.update sampleFilterNode 48000).a2| < 1) :=
  ⟨⟨by norm_num [sampleFilterNode], by norm_num [sampleFilterNode],
      by norm_num [sampleFilterNode]⟩,
    biquad_update_stable sampleBiquad sampleFilterNode 48000
      (by norm_num [sampleFilterNode]) (by norm_num [sampleFilterNode])
      (by norm_num [sampleFilterNode])⟩

/-- C8 counterexample: the node `nodeAboveNyquist` has every parameter
inside the documented bounds (freq 20000 Hz, gain 0 dB, Q 1, order 2), yet
at the valid sample rate 30000 Hz — where 20000 Hz exceeds Nyquist — the
computed normalized feedback coefficients of `Biquad::update` violate the
claimed stability region (`a2 > 1`). -/
theorem biquad_update_unstable_above_nyquist :
    ¬ (|(Biquad.default.update nodeAboveNyquist 30000).a1| < 2 ∧
       |(Biquad.default.update nodeAboveNyquist 30000).a2| < 1) := by
  rintro ⟨-, h2⟩
  have hs3a : (1:ℝ) < Real.sqrt 3 := by
    have h1 : Real.sqrt 1 < Real.sqrt 3 :=
      Real.sqrt_lt_sqrt (by norm_num) (by norm_num)
    rwa [Real.sqrt_one] at h1
  have hs3b : Real.sqrt 3 < 2 := by
    have h4 : (2:ℝ) = Real.sqrt 4 := by
      rw [show (4:ℝ) = 2 ^ 2 by norm_num, Real.sqrt_sq (by norm_num)]
    rw [h4]
    exact Real.sqrt_lt_sqrt (by norm_num) (by norm_num)
  simp only [Biquad.update, nodeAboveNyquist,
    Biquad.calculateCoefficients] at h2
  rw [show 2 * Real.pi * (20000:ℝ) / 30000 = Real.pi + Real.pi / 3 by ring]
    at h2
  rw [show Real.sin (Real.pi + Real.pi / 3) = -(Real.sqrt 3 / 2) by
    rw [Real.sin_add, Real.sin_pi, Real.cos_pi, Real.sin_pi_div_three]
    ring] at h2
  have hd : (0:ℝ) < 1 + -(Real.sqrt 3 / 2) / (2 * 1) := by nlinarith
  have hval : 1 < (1 - -(Real.sqrt 3 / 2) / (2 * 1)) *
      (1 / (1 + -(Real.sqrt 3 / 2) / (2 * 1))) := by
    rw [mul_one_div, lt_div_iff hd]
    nlinarith
  exact absurd h2 (not_lt.mpr (le_trans hval.le (le_abs_self _)))

end Audido
